import Mathlib

/-!
Verification of the claunch URL handler (`src/claunch/handler.py`) against its
specification.

Embedding conventions:
* Python strings are `List Char`; paths are strings.
* The filesystem is a finite list of the paths that currently exist as
  directories (`FS`); `os.path.isdir` is membership.
* The recursive decoder is embedded with an explicit fuel argument so that it
  is structurally recursive and kernel-computable.  Every recursive call of
  the Python function strictly shortens the remainder, so `length + 1` fuel
  is always enough; the top-level wrapper supplies exactly that.
-/

/-! ## Definitions: shallow embedding of handler.py -/

/-- A filesystem state: the finite set of paths that currently exist as
directories. -/
structure FS where
  dirs : List (List Char)
deriving DecidableEq

/-- Embedding of `os.path.isdir`: the path is in the set of existing
directories. -/
def FS.isdir (fs : FS) (p : List Char) : Bool :=
  fs.dirs.contains p

/-- Embedding of `remainder.find("-", i)`: splits a string at its first dash,
returning the dash-free text before it and the text after it, or `none` when
the string has no dash. -/
def splitAtDash : List Char → Option (List Char × List Char)
  | [] => none
  | c :: cs =>
    if c = '-' then some ([], cs)
    else
      match splitAtDash cs with
      | none => none
      | some (pre, post) => some (c :: pre, post)

/-- Component text of a candidate: a dot-prefix component gets a leading
dot prepended (`"." + rest[:k]` in the source), an ordinary component is the
raw text. -/
def mkComp (dotted : Bool) (text : List Char) : List Char :=
  if dotted then '.' :: text else text

/-- Embedding of the dash-scanning loops of `_decode_project_dir_recursive`
(handler.py lines 70-119).  `done` is the part of the remainder already
scanned past (`remainder[:i]`), `todo` the rest.  Each dash found is first
tried as a path separator (recursing through `recurse` when the component so
far exists as a directory) and then kept as a literal dash.  When no dash is
left and the scan position is inside the string, the whole remainder is the
final component.  `sfuel` bounds the loop; `todo.length + 1` iterations always
suffice since each step strictly shortens `todo`. -/
def scanLoop (fs : FS) (pref : List Char) (dotted : Bool)
    (recurse : List Char → List Char → List (List Char)) :
    Nat → List Char → List Char → List (List Char)
  | 0, _, _ => []
  | sfuel + 1, done, todo =>
    match splitAtDash todo with
    | none =>
      if todo = [] then []
      else
        let cand := pref ++ '/' :: mkComp dotted (done ++ todo)
        if fs.isdir cand then [cand] else []
    | some (pre, post) =>
      let np := pref ++ '/' :: mkComp dotted (done ++ pre)
      (if fs.isdir np then recurse np post else []) ++
        scanLoop fs pref dotted recurse sfuel (done ++ pre ++ ['-']) post

/-- Embedding of the dot-marker normalisation at the start of a component
(handler.py line 83): `remainder[2:]` when the remainder starts with `--`,
else `remainder[1:]`; the caller has already consumed the first dash. -/
def dropDotMarker (l : List Char) : List Char :=
  if l.head? = some '-' then l.tail else l

/-- Embedding of `_decode_project_dir_recursive` (handler.py lines 52-119).
`fuel` bounds the recursion depth; every recursive call strictly shortens the
remainder, so `remainder.length + 1` is always enough. -/
def decode_project_dir_recursive (fs : FS) :
    Nat → List Char → List Char → List (List Char)
  | 0, _, _ => []
  | fuel + 1, pref, remainder =>
    match remainder with
    | [] => if fs.isdir pref then [pref] else []
    | c :: rem2 =>
      if c = '-' then
        let rest := dropDotMarker rem2
        if rest = [] then []
        else
          scanLoop fs pref true
            (fun np post => decode_project_dir_recursive fs fuel np post)
            (rest.length + 1) [] rest
      else
        scanLoop fs pref false
          (fun np post => decode_project_dir_recursive fs fuel np post)
          ((c :: rem2).length + 1) [] (c :: rem2)

/-- Embedding of `decode_project_dir` (handler.py lines 122-135): strip one
leading dash (the encoded filesystem root) and run the recursive search from
an empty prefix. -/
def decode_project_dir (fs : FS) (name : List Char) : List (List Char) :=
  let stripped := if name.head? = some '-' then name.tail else name
  if stripped = [] then []
  else decode_project_dir_recursive fs (stripped.length + 1) [] stripped

/-- Encoding of one path component under the fixed external rule: a leading
dot is replaced by a dash, any other component is kept verbatim. -/
def encComp (c : List Char) : List Char :=
  if c.head? = some '.' then '-' :: c.tail else c

/-- Encoded text of a component list after the leading root dash:
components joined by dashes. -/
def encTail : List (List Char) → List Char
  | [] => []
  | [c] => encComp c
  | c :: cs => encComp c ++ '-' :: encTail cs

/-- Encoding of a full absolute path given by its components: each component
is preceded by a dash standing for the path separator (spec section 3,
`EncodedName`; handler.py docstring lines 55-62). -/
def encode (cs : List (List Char)) : List Char :=
  (cs.map (fun c => '-' :: encComp c)).flatten

/-- The absolute path string of a component list appended to `pref`. -/
def pathOf (pref : List Char) : List (List Char) → List Char
  | [] => pref
  | c :: cs => pathOf (pref ++ '/' :: c) cs

/-- Every (nonempty) chain prefix of the component list exists as a
directory below `pref`. -/
def chainDirs (fs : FS) (pref : List Char) : List (List Char) → Bool
  | [] => true
  | c :: cs => fs.isdir (pref ++ '/' :: c) && chainDirs fs (pref ++ '/' :: c) cs

/-- A component whose encoding the decoder can re-segment: nonempty, not
beginning with a dash, and when dot-prefixed the text after the dot must be
nonempty and not begin with a dash. -/
def goodComp (c : List Char) : Bool :=
  match c with
  | [] => false
  | a :: t =>
    if a = '.' then
      if t.isEmpty then false else decide (t.head? ≠ some '-')
    else decide (a ≠ '-')

/-- The final component of the list does not end in a dash (a trailing dash
makes the decoder's scan loop exit before emitting the final candidate). -/
def lastOk (cs : List (List Char)) : Bool :=
  match cs.getLast? with
  | none => true
  | some c => decide (c.getLast? ≠ some '-')

/-- Embedding of `os.path.basename`: the text after the last slash. -/
def basename (p : List Char) : List Char :=
  (p.reverse.takeWhile (fun c => !(c = '/'))).reverse

/-- Embedding of the Python substring test `needle in hay`. -/
def containsSub (hay needle : List Char) : Bool :=
  if needle.isPrefixOf hay then true
  else
    match hay with
    | [] => false
    | _ :: t => containsSub t needle

/-- Lexicographic order on strings by code point, as Python compares them. -/
def lexLe : List Char → List Char → Bool
  | [], _ => true
  | _ :: _, [] => false
  | a :: as, b :: bs => if a = b then lexLe as bs else decide (a < b)

/-- Ordered insertion used by the sorting embedding. -/
def insertSorted (x : List Char) : List (List Char) → List (List Char)
  | [] => [x]
  | y :: ys => if lexLe x y then x :: y :: ys else y :: insertSorted x ys

/-- Embedding of Python `sorted` on a list of strings. -/
def sortPaths : List (List Char) → List (List Char)
  | [] => []
  | x :: xs => insertSorted x (sortPaths xs)

/-- Deduplication worker keeping the first occurrence of every element. -/
def dedupAux (seen : List (List Char)) : List (List Char) → List (List Char)
  | [] => []
  | p :: rest =>
    if seen.contains p then dedupAux seen rest
    else p :: dedupAux (p :: seen) rest

/-- Key list of a Python dict built by repeated insertion: first occurrence
of each key wins the position, later duplicates only update the value. -/
def dedupKeys (l : List (List Char)) : List (List Char) :=
  dedupAux [] l

/-- First-match association-list lookup: a Python dict read. -/
def alookup {α : Type} (l : List (List Char × α)) (k : List Char) : Option α :=
  match l with
  | [] => none
  | (k2, v) :: rest => if k2 = k then some v else alookup rest k

/-- Python dict write: replace the first binding of the key in place, or
append a new binding at the end. -/
def assocSet {α : Type} (l : List (List Char × α)) (k : List Char) (v : α) :
    List (List Char × α) :=
  match l with
  | [] => [(k, v)]
  | (k2, v2) :: rest =>
    if k2 = k then (k, v) :: rest else (k2, v2) :: assocSet rest k v

/-- The validated configuration record used by the resolver: an optional
terminal choice and the name-to-directory projects mapping. -/
structure Config where
  terminal : Option (List Char)
  projects : List (List Char × List Char)
deriving DecidableEq

/-- The empty Python dict used when no config is present. -/
def emptyConfig : Config := ⟨none, []⟩

/-- Error outcomes of the handler, one constructor per distinct `ValueError`
raised by handler.py (plus the propagated save failure). -/
inductive Err where
  | badScheme (s : List Char)
  | badHost (s : List Char)
  | missingPrompt
  | missingVersion
  | invalidVersion (s : List Char)
  | unsupportedVersion (v : Int)
  | unknownProject (name : List Char)
  | selectionCancelled (name : List Char)
  | saveFailed
  | directoryMissing (d : List Char)
deriving DecidableEq

/-- On-disk file map: path to (parsed) file content.  Only config-file shaped
contents matter to the claims, so contents are modelled post-serialization as
`Config` values. -/
abbrev Disk := List (List Char × Config)

/-- Reading a file from the disk map. -/
def fsRead (d : Disk) (p : List Char) : Option Config := alookup d p

/-- Creating or overwriting a file on the disk map. -/
def fsWrite (d : Disk) (p : List Char) (c : Config) : Disk := assocSet d p c

/-- Embedding of `os.unlink`. -/
def fsRemove (d : Disk) (p : List Char) : Disk :=
  d.filter (fun e => !(e.1 == p))

/-- Embedding of `os.replace src dst`: the destination gets the source's
content and the source disappears. -/
def fsReplace (d : Disk) (src dst : List Char) : Disk :=
  match fsRead d src with
  | none => d
  | some c => fsWrite (fsRemove d src) dst c

/-- Embedding of `os.path.dirname`. -/
def dirname (p : List Char) : List Char :=
  let head := (p.reverse.dropWhile (fun c => !(c = '/'))).reverse
  if head.isEmpty then []
  else if head.all (fun c => c = '/') then head
  else (head.reverse.dropWhile (fun c => c = '/')).reverse

/-- The config file location (handler.py line 15); the `~` of `expanduser`
is kept as an opaque token. -/
def CONFIG_PATH : List Char := "~/.config/claunch/config.json".data

/-- The directory holding the config file (`os.path.dirname(CONFIG_PATH)`). -/
def configDir : List Char := dirname CONFIG_PATH

/-- Path of the temporary file produced by `tempfile.mkstemp(dir=config_dir,
suffix=".json")`: a fresh random stem inside the config directory. -/
def tmpPath (tmpName : List Char) : List Char :=
  configDir ++ '/' :: (tmpName ++ ".json".data)

/-- Pure part of `save_project_mapping` (handler.py lines 190-193): copy the
config, set `projects[project_name] = directory`. -/
def save_mapping (config : Option Config) (project_name directory : List Char) :
    Config :=
  let c := config.getD emptyConfig
  { c with projects := assocSet c.projects project_name directory }

/-- Embedding of `save_project_mapping` (handler.py lines 188-212) together
with its disk effects.  `tmpName` is the fresh stem chosen by `mkstemp`;
`writeOk` selects whether the `json.dump`/`os.replace` sequence succeeds or a
failure is raised mid-write, in which case the handler unlinks the temporary
file and re-raises. -/
def save_project_mapping (disk : Disk) (config : Option Config)
    (project_name directory tmpName : List Char) (writeOk : Bool) :
    Except Err Config × Disk :=
  let newCfg := save_mapping config project_name directory
  let tp := tmpPath tmpName
  if writeOk then
    (.ok newCfg, fsReplace (fsWrite disk tp newCfg) tp CONFIG_PATH)
  else
    (.error .saveFailed, fsRemove (fsWrite disk tp newCfg) tp)

/-- Environment of one handler invocation: the filesystem, the Claude
projects root and its directory entries (`os.listdir`), and the external
picker dialog (`show_project_picker`), where `none` covers every failed,
cancelled or timed-out outcome. -/
structure Env where
  fs : FS
  projectsRoot : List Char
  claudeEntries : List (List Char)
  picker : List Char → List (List Char) → Option (List Char)

/-- Embedding of `discover_claude_projects` (handler.py lines 138-156),
restricted to the dict's key list (its values are not used by the resolver):
decode every directory entry of the projects root and collect all decoded
paths, first occurrence first. -/
def discover_claude_projects (env : Env) : List (List Char) :=
  if env.fs.isdir env.projectsRoot = false then []
  else
    dedupKeys ((env.claudeEntries.map (fun entry =>
      if env.fs.isdir (env.projectsRoot ++ '/' :: entry)
      then decode_project_dir env.fs entry else [])).flatten)

/-- The `exact` tier of `resolve_unknown_project` (handler.py line 230). -/
def exactMatches (env : Env) (project_name : List Char) : List (List Char) :=
  (discover_claude_projects env).filter (fun p => basename p == project_name)

/-- The substring tier of `resolve_unknown_project` (handler.py line 231). -/
def substrMatches (env : Env) (project_name : List Char) : List (List Char) :=
  (discover_claude_projects env).filter
    (fun p => containsSub (basename p) project_name)

/-- Candidate narrowing (handler.py lines 233-238): exact tier if nonempty,
else substring tier if nonempty, else all discovered paths sorted. -/
def candidateList (env : Env) (project_name : List Char) : List (List Char) :=
  if (exactMatches env project_name).isEmpty = false then
    exactMatches env project_name
  else if (substrMatches env project_name).isEmpty = false then
    substrMatches env project_name
  else sortPaths (discover_claude_projects env)

/-- Embedding of `resolve_unknown_project` (handler.py lines 215-250). -/
def resolve_unknown_project (env : Env) (project_name : List Char)
    (config : Option Config) (disk : Disk) (tmpName : List Char)
    (writeOk : Bool) : Except Err (List Char × Config) × Disk :=
  if (discover_claude_projects env).isEmpty then
    (.error (.unknownProject project_name), disk)
  else
    match exactMatches env project_name with
    | [directory] =>
      (match save_project_mapping disk config project_name directory tmpName writeOk with
       | (.ok newCfg, disk2) => (.ok (directory, newCfg), disk2)
       | (.error e, disk2) => (.error e, disk2))
    | _ =>
      match env.picker project_name (sortPaths (candidateList env project_name)) with
      | none => (.error (.selectionCancelled project_name), disk)
      | some directory =>
        if directory.isEmpty then (.error (.selectionCancelled project_name), disk)
        else
          match save_project_mapping disk config project_name directory tmpName writeOk with
          | (.ok newCfg, disk2) => (.ok (directory, newCfg), disk2)
          | (.error e, disk2) => (.error e, disk2)

/-- Result of `urlparse`/`parse_qs` on the URL: scheme, authority and the
query dictionary mapping each key to its list of values. -/
structure ParsedUrl where
  scheme : List Char
  netloc : List Char
  params : List (List Char × List (List Char))

/-- Reading one query parameter's value list. -/
def getParam (u : ParsedUrl) (k : List Char) : Option (List (List Char)) :=
  alookup u.params k

/-- The whitespace characters stripped by Python `str.strip()`. -/
def isPySpace (c : Char) : Bool :=
  c = ' ' || c = '\t' || c = '\n' || c = '\r' || c = Char.ofNat 11 || c = Char.ofNat 12

/-- Embedding of Python `str.strip()`. -/
def pyStrip (s : List Char) : List Char :=
  ((s.dropWhile isPySpace).reverse.dropWhile isPySpace).reverse

/-- Digit-string accumulator for the integer parser. -/
def parseDigitsAux : List Char → Nat → Option Nat
  | [], acc => some acc
  | c :: r, acc =>
    if '0' ≤ c ∧ c ≤ '9' then
      parseDigitsAux r (acc * 10 + (c.toNat - '0'.toNat))
    else none

/-- A nonempty all-digit string parsed as a natural number. -/
def parseDigits (l : List Char) : Option Nat :=
  if l.isEmpty then none else parseDigitsAux l 0

/-- Embedding of Python `int(str)`: surrounding whitespace is tolerated,
an optional sign is followed by a nonempty digit string. -/
def parseInt (s : List Char) : Option Int :=
  match pyStrip s with
  | [] => none
  | c :: r =>
    if c = '+' then (parseDigits r).map (fun n => (n : Int))
    else if c = '-' then (parseDigits r).map (fun n => -(n : Int))
    else (parseDigits (c :: r)).map (fun n => (n : Int))

/-- The supported protocol versions (handler.py line 18). -/
def SUPPORTED_VERSIONS : List Int := [1]

/-- The project parameter as read by `parse_url` (handler.py lines 284-285):
present with a non-whitespace first value, else absent. -/
def projectOf (u : ParsedUrl) : Option (List Char) :=
  match getParam u "project".data with
  | some (p :: _) => if (pyStrip p).isEmpty then none else some p
  | _ => none

/-- The projects mapping seen by `parse_url`:
`(config or {}).get("projects") or {}`. -/
def configProjects (config : Option Config) : List (List Char × List Char) :=
  (config.getD emptyConfig).projects

/-- Embedding of `parse_url` (handler.py lines 253-298), threading the disk
state and the save-failure switch through the resolution path. -/
def parse_url (env : Env) (u : ParsedUrl) (config : Option Config)
    (disk : Disk) (tmpName : List Char) (writeOk : Bool) :
    Except Err (List Char × Option (List Char) × Int × Option Config) × Disk :=
  if u.scheme = "claunch".data then
    if u.netloc = "open".data then
      match getParam u "prompt".data with
      | some (promptV :: _) =>
        if (pyStrip promptV).isEmpty then (.error .missingPrompt, disk)
        else
          match getParam u "v".data with
          | some (vV :: _) =>
            if (pyStrip vV).isEmpty then (.error .missingVersion, disk)
            else
              match parseInt vV with
              | none => (.error (.invalidVersion vV), disk)
              | some version =>
                if SUPPORTED_VERSIONS.contains version then
                  match projectOf u with
                  | none => (.ok (promptV, none, version, config), disk)
                  | some project =>
                    match alookup (configProjects config) project with
                    | some directory =>
                      if directory.isEmpty then
                        (.ok (promptV, some directory, version, config), disk)
                      else if env.fs.isdir directory then
                        (.ok (promptV, some directory, version, config), disk)
                      else (.error (.directoryMissing directory), disk)
                    | none =>
                      match resolve_unknown_project env project config disk tmpName writeOk with
                      | (.error e, disk2) => (.error e, disk2)
                      | (.ok (directory, newCfg), disk2) =>
                        if directory.isEmpty then
                          (.ok (promptV, some directory, version, some newCfg), disk2)
                        else if env.fs.isdir directory then
                          (.ok (promptV, some directory, version, some newCfg), disk2)
                        else (.error (.directoryMissing directory), disk2)
                else (.error (.unsupportedVersion version), disk)
          | _ => (.error .missingVersion, disk)
      | _ => (.error .missingPrompt, disk)
    else (.error (.badHost u.netloc), disk)
  else (.error (.badScheme u.scheme), disk)

/-- JSON values as produced by `json.load`. -/
inductive JVal where
  | null
  | bool (b : Bool)
  | num (n : Int)
  | str (s : List Char)
  | arr (xs : List JVal)
  | obj (fields : List (List Char × JVal))

/-- Python-dict lookup for a parsed JSON object: with duplicate keys the
last occurrence wins, absent keys give `none`. -/
def jlookup : List (List Char × JVal) → List Char → Option JVal
  | [], _ => none
  | (k2, v) :: rest, k =>
    match jlookup rest k with
    | some r => some r
    | none => if k2 = k then some v else none

/-- Embedding of `config.get(key)`: JSON `null` is Python `None`, so a null
value behaves exactly like an absent key. -/
def pyGet (fields : List (List Char × JVal)) (k : List Char) : Option JVal :=
  match jlookup fields k with
  | some JVal.null => none
  | x => x

/-- The on-disk states `load_config` distinguishes: no file, an `OSError`
while reading, content that is not valid JSON, or a parsed document. -/
inductive FileState where
  | missing
  | unreadable
  | notJson
  | parsed (doc : JVal)

/-- The supported terminal enum (handler.py line 17). -/
def VALID_TERMINALS : List (List Char) :=
  ["ghostty".data, "iterm".data, "terminal".data]

/-- Outcome of `load_config`: the function returns Python `None`, returns the
parsed document, or lets an exception propagate — the only such exception is
the `TypeError` raised by `terminal not in VALID_TERMINALS` when the terminal
value is unhashable (a JSON array or object), since the set-membership test is
outside the `try` block and `main` only catches `ValueError`. -/
inductive LoadResult where
  | absent
  | loaded (doc : JVal)
  | crash

/-- The projects validation tail of `load_config` (handler.py lines 44-49):
`projects`, when present and non-null, must be a JSON object; its values are
not inspected.  `isinstance` never hashes, so this step cannot crash. -/
def projectsCheck (fields : List (List Char × JVal)) : LoadResult :=
  match pyGet fields "projects".data with
  | none => .loaded (JVal.obj fields)
  | some (JVal.obj _) => .loaded (JVal.obj fields)
  | some _ => .absent

/-- Embedding of `load_config` (handler.py lines 21-49).  The terminal guard
`terminal is not None and terminal not in VALID_TERMINALS` is split by the
Python value `json.load` produces: `null` becomes `None` and skips the guard;
strings are tested against the set; booleans and numbers are hashable, never
in the set of strings, and give `None`; lists and dicts are unhashable, so
the `in` test raises an uncaught `TypeError` (handler.py line 37). -/
def load_config : FileState → LoadResult
  | .missing => .absent
  | .unreadable => .absent
  | .notJson => .absent
  | .parsed doc =>
    match doc with
    | JVal.obj fields =>
      (match jlookup fields "terminal".data with
       | none => projectsCheck fields
       | some JVal.null => projectsCheck fields
       | some (JVal.str s) =>
         if VALID_TERMINALS.contains s then projectsCheck fields else .absent
       | some (JVal.bool _) => .absent
       | some (JVal.num _) => .absent
       | some (JVal.arr _) => .crash
       | some (JVal.obj _) => .crash)
    | _ => .absent

/-! ## Theorems -/

/-- A dash-free string has no split. -/
theorem splitAtDash_none {l : List Char} (h : splitAtDash l = none) : '-' ∉ l := by
  induction l with
  | nil => simp
  | cons c cs ih =>
    by_cases hc : c = '-'
    · subst hc; simp [splitAtDash] at h
    · simp only [splitAtDash, if_neg hc] at h
      cases hs : splitAtDash cs with
      | none =>
        simp only [List.mem_cons, not_or]
        exact ⟨fun hh => hc hh.symm, ih hs⟩
      | some pp => rw [hs] at h; cases h

/-- A successful split decomposes the string at its first dash. -/
theorem splitAtDash_some {l pre post : List Char}
    (h : splitAtDash l = some (pre, post)) :
    l = pre ++ '-' :: post ∧ '-' ∉ pre := by
  induction l generalizing pre post with
  | nil => simp [splitAtDash] at h
  | cons c cs ih =>
    by_cases hc : c = '-'
    · subst hc
      simp only [splitAtDash, if_pos rfl, Option.some.injEq, Prod.mk.injEq] at h
      rcases h with ⟨rfl, rfl⟩
      simp
    · simp only [splitAtDash, if_neg hc] at h
      cases hs : splitAtDash cs with
      | none => rw [hs] at h; cases h
      | some pp =>
        obtain ⟨p1, p2⟩ := pp
        rw [hs] at h
        simp only [Option.some.injEq, Prod.mk.injEq] at h
        obtain ⟨he, hm⟩ := ih hs
        rcases h with ⟨rfl, rfl⟩
        constructor
        · simp [he]
        · simp only [List.mem_cons, not_or]
          exact ⟨fun hh => hc hh.symm, hm⟩

/-- The encoding of a nonempty path is a dash followed by the dash-joined
component encodings. -/
theorem encode_eq_cons : ∀ (cs : List (List Char)), cs ≠ [] →
    encode cs = '-' :: encTail cs
  | [], h => absurd rfl h
  | [c], _ => by simp [encode, encTail]
  | c :: c2 :: cs2, _ => by
    have ih := encode_eq_cons (c2 :: cs2) (by simp)
    simp only [encode, List.map_cons, List.flatten_cons] at ih ⊢
    rw [ih]
    simp [encTail]

/-- A well-formed component has a nonempty encoding. -/
theorem encComp_ne_nil {c : List Char} (h : goodComp c = true) : encComp c ≠ [] := by
  cases c with
  | nil => simp [goodComp] at h
  | cons a t =>
    by_cases ha : a = '.'
    · subst ha; simp [encComp]
    · simp [encComp, ha]

/-- A nonempty list of well-formed components has a nonempty encoded tail. -/
theorem encTail_ne_nil {cs : List (List Char)} (hne : cs ≠ [])
    (hgood : cs.all goodComp = true) : encTail cs ≠ [] := by
  cases cs with
  | nil => exact absurd rfl hne
  | cons c cs =>
    have hc : goodComp c = true := by
      simp only [List.all_cons, Bool.and_eq_true] at hgood
      exact hgood.1
    cases cs with
    | nil => simpa [encTail] using encComp_ne_nil hc
    | cons c2 cs2 =>
      simp only [encTail]
      intro hcontra
      exact absurd (List.append_eq_nil.mp hcontra).2 (by simp)

/-- The last element of an append with nonempty right part. -/
theorem getLast?_append_right {α : Type} (l1 l2 : List α) (h : l2 ≠ []) :
    (l1 ++ l2).getLast? = l2.getLast? := by
  rw [List.getLast?_append]
  cases hl : l2.getLast? with
  | none =>
    exact absurd (List.getLast?_eq_none_iff.mp hl) h
  | some a => rfl

/-- The last element across a dash split with nonempty right part. -/
theorem getLast?_dash_cons (pre post : List Char) (h : post ≠ []) :
    (pre ++ '-' :: post).getLast? = post.getLast? := by
  rw [getLast?_append_right pre ('-' :: post) (by simp)]
  cases post with
  | nil => exact absurd rfl h
  | cons b m => exact List.getLast?_cons_cons

/-- Comparing a first-dash split with an arbitrary dash split: either they
cut at the same dash, or the arbitrary cut lies strictly further right. -/
theorem dash_split_cases :
    ∀ (pre post y rem2 : List Char), '-' ∉ pre →
      pre ++ '-' :: post = y ++ '-' :: rem2 →
      (y = pre ∧ rem2 = post) ∨
        ∃ y2, y = pre ++ '-' :: y2 ∧ post = y2 ++ '-' :: rem2 := by
  intro pre
  induction pre with
  | nil =>
    intro post y rem2 _ heq
    cases y with
    | nil =>
      left
      simp only [List.nil_append, List.cons.injEq] at heq
      exact ⟨rfl, heq.2.symm⟩
    | cons a y1 =>
      right
      simp only [List.nil_append, List.cons_append, List.cons.injEq] at heq
      exact ⟨y1, by simp [heq.1.symm], heq.2⟩
  | cons b pre1 ih =>
    intro post y rem2 hnd heq
    have hb : b ≠ '-' := fun hh => hnd (by simp [hh])
    cases y with
    | nil =>
      simp only [List.cons_append, List.nil_append, List.cons.injEq] at heq
      exact absurd heq.1 hb
    | cons a y1 =>
      simp only [List.cons_append, List.cons.injEq] at heq
      obtain ⟨hab, heq2⟩ := heq
      have hnd1 : '-' ∉ pre1 := fun hh => hnd (by simp [hh])
      rcases ih post y1 rem2 hnd1 heq2 with ⟨h1, h2⟩ | ⟨y2, h1, h2⟩
      · left; exact ⟨by simp [hab, h1], h2⟩
      · right; exact ⟨y2, by simp [hab, h1], h2⟩

/-- The scan loop emits the whole-remainder candidate when the remainder does
not end in a dash and the candidate exists as a directory. -/
theorem scanLoop_mem_final (fs : FS) (pref : List Char) (dotted : Bool)
    (recurse : List Char → List Char → List (List Char)) :
    ∀ (sfuel : Nat) (todo done : List Char), todo.length < sfuel → todo ≠ [] →
      todo.getLast? ≠ some '-' →
      fs.isdir (pref ++ '/' :: mkComp dotted (done ++ todo)) = true →
      (pref ++ '/' :: mkComp dotted (done ++ todo)) ∈
        scanLoop fs pref dotted recurse sfuel done todo := by
  intro sfuel
  induction sfuel with
  | zero => intro todo done h; omega
  | succ n ih =>
    intro todo done hlen hne hlast hdir
    cases hsp : splitAtDash todo with
    | none =>
      simp [scanLoop, hsp, hne, hdir]
    | some pp =>
      obtain ⟨pre, post⟩ := pp
      obtain ⟨heq, -⟩ := splitAtDash_some hsp
      have hpost : post ≠ [] := by
        intro h0
        subst h0
        rw [heq] at hlast
        exact hlast (List.getLast?_concat pre)
      have hlast2 : post.getLast? ≠ some '-' := by
        rw [heq, getLast?_dash_cons pre post hpost] at hlast
        exact hlast
      have hassoc : (done ++ pre ++ ['-']) ++ post = done ++ todo := by
        rw [heq]; simp
      have hdir2 :
          fs.isdir (pref ++ '/' :: mkComp dotted ((done ++ pre ++ ['-']) ++ post)) = true := by
        rw [hassoc]; exact hdir
      have hlen2 : post.length < n := by
        have := heq ▸ hlen
        simp only [List.length_append, List.length_cons] at this
        omega
      have hmem := ih post (done ++ pre ++ ['-']) hlen2 hpost hlast2 hdir2
      rw [hassoc] at hmem
      simp only [scanLoop, hsp]
      exact List.mem_append_right _ hmem

/-- The scan loop reaches every dash of the remainder: whatever the recursive
call at a chosen dash produces is contained in the loop's result, provided the
component up to that dash exists as a directory. -/
theorem scanLoop_mem_split (fs : FS) (pref : List Char) (dotted : Bool)
    (recurse : List Char → List Char → List (List Char)) :
    ∀ (sfuel : Nat) (todo done y rem2 : List Char) (p : List Char),
      todo.length < sfuel →
      todo = y ++ '-' :: rem2 →
      fs.isdir (pref ++ '/' :: mkComp dotted (done ++ y)) = true →
      p ∈ recurse (pref ++ '/' :: mkComp dotted (done ++ y)) rem2 →
      p ∈ scanLoop fs pref dotted recurse sfuel done todo := by
  intro sfuel
  induction sfuel with
  | zero => intro todo done y rem2 p h; omega
  | succ n ih =>
    intro todo done y rem2 p hlen heq hdir hp
    cases hsp : splitAtDash todo with
    | none =>
      exfalso
      exact splitAtDash_none hsp (by rw [heq]; exact List.mem_append_right _ (by simp))
    | some pp =>
      obtain ⟨pre, post⟩ := pp
      obtain ⟨heq2, hnd⟩ := splitAtDash_some hsp
      rcases dash_split_cases pre post y rem2 hnd (heq2.symm.trans heq) with
        ⟨hy, hr⟩ | ⟨y2, hy, hr⟩
      · subst hy; subst hr
        simp only [scanLoop, hsp]
        apply List.mem_append_left
        rw [hdir]
        simpa using hp
      · have hlen2 : post.length < n := by
          have := heq2 ▸ hlen
          simp only [List.length_append, List.length_cons] at this
          omega
        have hdir2 :
            fs.isdir (pref ++ '/' :: mkComp dotted ((done ++ pre ++ ['-']) ++ y2)) = true := by
          have : (done ++ pre ++ ['-']) ++ y2 = done ++ y := by rw [hy]; simp
          rw [this]; exact hdir
        have hp2 :
            p ∈ recurse (pref ++ '/' :: mkComp dotted ((done ++ pre ++ ['-']) ++ y2)) rem2 := by
          have : (done ++ pre ++ ['-']) ++ y2 = done ++ y := by rw [hy]; simp
          rw [this]; exact hp
        have hmem := ih post (done ++ pre ++ ['-']) y2 rem2 p hlen2 hr hdir2 hp2
        simp only [scanLoop, hsp]
        exact List.mem_append_right _ hmem

/-- The final-component condition only depends on the list's tail. -/
theorem lastOk_cons_cons (c c2 : List Char) (cs2 : List (List Char)) :
    lastOk (c :: c2 :: cs2) = lastOk (c2 :: cs2) := by
  unfold lastOk
  rw [List.getLast?_cons_cons]

/-- No second dash, nothing dropped. -/
theorem dropDotMarker_cons {b : Char} (t : List Char) (hb : b ≠ '-') :
    dropDotMarker (b :: t) = b :: t := by
  simp [dropDotMarker, hb]

/-- One unfolding of the decoder at a leading dash (the dot-component case). -/
theorem decodeRec_cons_dash (fs : FS) (f : Nat) (pref rem2 : List Char) :
    decode_project_dir_recursive fs (f + 1) pref ('-' :: rem2) =
      (if dropDotMarker rem2 = [] then []
       else
         scanLoop fs pref true
           (fun np post => decode_project_dir_recursive fs f np post)
           ((dropDotMarker rem2).length + 1) [] (dropDotMarker rem2)) := by
  simp [decode_project_dir_recursive]

/-- One unfolding of the decoder at an ordinary leading character. -/
theorem decodeRec_cons_plain (fs : FS) (f : Nat) (pref : List Char) (a : Char)
    (rem2 : List Char) (ha : a ≠ '-') :
    decode_project_dir_recursive fs (f + 1) pref (a :: rem2) =
      scanLoop fs pref false
        (fun np post => decode_project_dir_recursive fs f np post)
        ((a :: rem2).length + 1) [] (a :: rem2) := by
  simp [decode_project_dir_recursive, ha]

/-- Completeness of the recursive decoder: the path of any nonempty chain of
well-formed components below `pref` is found when decoding its encoded text,
for any sufficient fuel. -/
theorem decodeRec_complete (fs : FS) :
    ∀ (cs : List (List Char)) (pref : List Char) (fuel : Nat),
      (encTail cs).length < fuel → cs ≠ [] →
      cs.all goodComp = true → lastOk cs = true →
      chainDirs fs pref cs = true →
      pathOf pref cs ∈ decode_project_dir_recursive fs fuel pref (encTail cs) := by
  intro cs
  induction cs with
  | nil => intro pref fuel _ hne; exact absurd rfl hne
  | cons c cs ih =>
    intro pref fuel hfuel hne hgood hlast hchain
    obtain ⟨f, rfl⟩ : ∃ f, fuel = f + 1 := ⟨fuel - 1, by omega⟩
    have hgc : goodComp c = true := by
      simp only [List.all_cons, Bool.and_eq_true] at hgood; exact hgood.1
    have hgcs : cs.all goodComp = true := by
      simp only [List.all_cons, Bool.and_eq_true] at hgood; exact hgood.2
    have hdir : fs.isdir (pref ++ '/' :: c) = true := by
      simp only [chainDirs, Bool.and_eq_true] at hchain; exact hchain.1
    have hchain2 : chainDirs fs (pref ++ '/' :: c) cs = true := by
      simp only [chainDirs, Bool.and_eq_true] at hchain; exact hchain.2
    cases c with
    | nil => simp [goodComp] at hgc
    | cons a t =>
      by_cases ha : a = '.'
      · subst ha
        cases t with
        | nil => simp [goodComp] at hgc
        | cons b t2 =>
          have hb : b ≠ '-' := by simpa [goodComp] using hgc
          have henc : encComp ('.' :: b :: t2) = '-' :: b :: t2 := by
            simp [encComp]
          cases cs with
          | nil =>
            have hlast2 : (b :: t2).getLast? ≠ some '-' := by
              simp only [lastOk, List.getLast?_singleton, List.getLast?_cons_cons,
                decide_eq_true_eq] at hlast
              exact hlast
            rw [show encTail [('.' :: b :: t2)] = '-' :: b :: t2 from by
              simp [encTail, henc]]
            rw [decodeRec_cons_dash, dropDotMarker_cons _ hb]
            simp only [List.cons_ne_nil, if_neg (by simp : ¬(b :: t2 = []))]
            have hmem := scanLoop_mem_final fs pref true
              (fun np post => decode_project_dir_recursive fs f np post)
              ((b :: t2).length + 1) (b :: t2) [] (by omega) (by simp) hlast2
              (by simpa [mkComp] using hdir)
            simpa [mkComp, pathOf] using hmem
          | cons c2 cs2 =>
            have hrem : encTail (('.' :: b :: t2) :: c2 :: cs2) =
                '-' :: ((b :: t2) ++ '-' :: encTail (c2 :: cs2)) := by
              simp [encTail, henc]
            rw [hrem, decodeRec_cons_dash]
            rw [show dropDotMarker ((b :: t2) ++ '-' :: encTail (c2 :: cs2)) =
                (b :: t2) ++ '-' :: encTail (c2 :: cs2) from by
              simpa [List.cons_append] using dropDotMarker_cons (t2 ++ '-' :: encTail (c2 :: cs2)) hb]
            simp only [List.cons_append, List.cons_ne_nil,
              if_neg (by simp : ¬(b :: (t2 ++ '-' :: encTail (c2 :: cs2)) = []))]
            have hfuel2 : (encTail (c2 :: cs2)).length < f := by
              rw [hrem] at hfuel
              simp only [List.length_cons, List.length_append] at hfuel
              omega
            have hih := ih (pref ++ '/' :: ('.' :: b :: t2)) f hfuel2 (by simp) hgcs
              (by rw [← lastOk_cons_cons ('.' :: b :: t2)]; exact hlast) hchain2
            have hmem := scanLoop_mem_split fs pref true
              (fun np post => decode_project_dir_recursive fs f np post)
              ((b :: (t2 ++ '-' :: encTail (c2 :: cs2))).length + 1)
              (b :: (t2 ++ '-' :: encTail (c2 :: cs2))) [] (b :: t2)
              (encTail (c2 :: cs2)) (pathOf (pref ++ '/' :: ('.' :: b :: t2)) (c2 :: cs2))
              (by omega) (by simp) (by simpa [mkComp] using hdir)
              (by simpa [mkComp] using hih)
            simpa [pathOf] using hmem
      · have ha2 : a ≠ '-' := by simpa [goodComp, ha] using hgc
        have henc : encComp (a :: t) = a :: t := by
          simp [encComp, ha]
        cases cs with
        | nil =>
          have hlast2 : (a :: t).getLast? ≠ some '-' := by
            simp only [lastOk, List.getLast?_singleton, decide_eq_true_eq] at hlast
            exact hlast
          rw [show encTail [(a :: t)] = a :: t from by simp [encTail, henc]]
          rw [decodeRec_cons_plain fs f pref a t ha2]
          have hmem := scanLoop_mem_final fs pref false
            (fun np post => decode_project_dir_recursive fs f np post)
            ((a :: t).length + 1) (a :: t) [] (by omega) (by simp) hlast2
            (by simpa [mkComp] using hdir)
          simpa [mkComp, pathOf] using hmem
        | cons c2 cs2 =>
          have hrem : encTail ((a :: t) :: c2 :: cs2) =
              a :: (t ++ '-' :: encTail (c2 :: cs2)) := by
            simp [encTail, henc]
          rw [hrem, decodeRec_cons_plain fs f pref a _ ha2]
          have hfuel2 : (encTail (c2 :: cs2)).length < f := by
            rw [hrem] at hfuel
            simp only [List.length_cons, List.length_append] at hfuel
            omega
          have hih := ih (pref ++ '/' :: (a :: t)) f hfuel2 (by simp) hgcs
            (by rw [← lastOk_cons_cons (a :: t)]; exact hlast) hchain2
          have hmem := scanLoop_mem_split fs pref false
            (fun np post => decode_project_dir_recursive fs f np post)
            ((a :: (t ++ '-' :: encTail (c2 :: cs2))).length + 1)
            (a :: (t ++ '-' :: encTail (c2 :: cs2))) [] (a :: t)
            (encTail (c2 :: cs2)) (pathOf (pref ++ '/' :: (a :: t)) (c2 :: cs2))
            (by omega) (by simp) (by simpa [mkComp] using hdir)
            (by simpa [mkComp] using hih)
          simpa [pathOf] using hmem

/-- Completeness of `decode_project_dir` for well-formed encodings. -/
theorem decode_project_dir_complete (fs : FS) (cs : List (List Char))
    (hne : cs ≠ []) (hgood : cs.all goodComp = true) (hlast : lastOk cs = true)
    (hchain : chainDirs fs [] cs = true) :
    pathOf [] cs ∈ decode_project_dir fs (encode cs) := by
  rw [encode_eq_cons cs hne]
  have hnenil := encTail_ne_nil hne hgood
  have hunfold : decode_project_dir fs ('-' :: encTail cs) =
      if encTail cs = [] then []
      else decode_project_dir_recursive fs ((encTail cs).length + 1) [] (encTail cs) := by
    simp [decode_project_dir]
  rw [hunfold, if_neg hnenil]
  exact decodeRec_complete fs cs [] ((encTail cs).length + 1) (by omega) hne hgood hlast hchain

/-- Claim C1, counterexample to the claim as stated.  The path `/a-` (a single
component ending in a dash) exists as a directory and its encoded name under
the fixed rule is `-a-`, yet `decode_project_dir` does not return it: the scan
loop leaves the loop after the final dash without ever emitting the
whole-remainder candidate, so the result is empty.  (The path has no proper
ancestors, so the filesystem state is closed under parents.) -/
theorem decode_roundtrip_counterexample :
    FS.isdir ⟨[['/', 'a', '-']]⟩ (pathOf [] [['a', '-']]) = true ∧
    decode_project_dir ⟨[['/', 'a', '-']]⟩ (encode [['a', '-']]) = [] ∧
    pathOf [] [['a', '-']] ∉ decode_project_dir ⟨[['/', 'a', '-']]⟩ (encode [['a', '-']]) := by
  decide

/-- Claim C1 (amended): for every filesystem state and every absolute path
given by its components, if the whole directory chain exists, every component
is nonempty and does not begin with a dash (a dot-prefixed component's text
after the dot also being nonempty and not beginning with a dash), and the
final component does not end with a dash, then decoding the encoded name of
the path yields a list containing the path. -/
theorem decode_roundtrip_good (fs : FS) (cs : List (List Char))
    (hne : cs ≠ []) (hgood : cs.all goodComp = true) (hlast : lastOk cs = true)
    (hchain : chainDirs fs [] cs = true) :
    pathOf [] cs ∈ decode_project_dir fs (encode cs) :=
  decode_project_dir_complete fs cs hne hgood hlast hchain

/-- Claim C1 witness: the round-trip theorem applied to the concrete path
`/u/my-app` on a filesystem where `/u` and `/u/my-app` exist. -/
theorem decode_roundtrip_witness :
    pathOf [] [['u'], ['m', 'y', '-', 'a', 'p', 'p']] ∈
      decode_project_dir ⟨[['/', 'u'], ['/', 'u', '/', 'm', 'y', '-', 'a', 'p', 'p']]⟩
        (encode [['u'], ['m', 'y', '-', 'a', 'p', 'p']]) :=
  decode_roundtrip_good ⟨[['/', 'u'], ['/', 'u', '/', 'm', 'y', '-', 'a', 'p', 'p']]⟩
    [['u'], ['m', 'y', '-', 'a', 'p', 'p']]
    (by decide) (by decide) (by decide) (by decide)

/-- Claim C2, counterexample to the claim as stated.  The encoded name
`-a-b-` has two distinct dash-segmentations whose directory chains both
exist — components `a`, `b-` (path `/a/b-`) and the single component `a-b-`
(path `/a-b-`) — yet the decoder returns neither: a remainder ending in a
dash makes the scan loop exit without emitting the final candidate. -/
theorem decode_ambiguity_counterexample :
    encode [['a'], ['b', '-']] = ['-', 'a', '-', 'b', '-'] ∧
    encode [['a', '-', 'b', '-']] = ['-', 'a', '-', 'b', '-'] ∧
    [['a'], ['b', '-']] ≠ [['a', '-', 'b', '-']] ∧
    chainDirs ⟨[['/', 'a'], ['/', 'a', '/', 'b', '-'], ['/', 'a', '-', 'b', '-']]⟩
      [] [['a'], ['b', '-']] = true ∧
    chainDirs ⟨[['/', 'a'], ['/', 'a', '/', 'b', '-'], ['/', 'a', '-', 'b', '-']]⟩
      [] [['a', '-', 'b', '-']] = true ∧
    decode_project_dir ⟨[['/', 'a'], ['/', 'a', '/', 'b', '-'], ['/', 'a', '-', 'b', '-']]⟩
      ['-', 'a', '-', 'b', '-'] = [] := by
  decide

/-- Claim C2 (amended): for every encoded name and every family of
dash-segmentations of it into well-formed components (each component nonempty
and not beginning with a dash, dot-components not continuing with a dash, the
final component not ending with a dash) whose directory chains all exist,
the decoder returns the full path of every such segmentation — in particular
a validated split at one dash position does not suppress later ones. -/
theorem decode_ambiguity_both (fs : FS) (name : List Char)
    (cs1 cs2 : List (List Char))
    (h1 : encode cs1 = name) (h2 : encode cs2 = name)
    (hne1 : cs1 ≠ []) (hne2 : cs2 ≠ [])
    (hg1 : cs1.all goodComp = true) (hg2 : cs2.all goodComp = true)
    (hl1 : lastOk cs1 = true) (hl2 : lastOk cs2 = true)
    (hc1 : chainDirs fs [] cs1 = true) (hc2 : chainDirs fs [] cs2 = true) :
    pathOf [] cs1 ∈ decode_project_dir fs name ∧
    pathOf [] cs2 ∈ decode_project_dir fs name := by
  subst h1
  constructor
  · exact decode_project_dir_complete fs cs1 hne1 hg1 hl1 hc1
  · rw [← h2]
    exact decode_project_dir_complete fs cs2 hne2 hg2 hl2 hc2

/-- Claim C2 witness: the ambiguity theorem applied to the encoded name
`-a-b-c` over a filesystem where both `/a/b/c` and `/a/b-c` exist together
with their ancestors; both decodings are returned. -/
theorem decode_ambiguity_witness :
    pathOf [] [['a'], ['b'], ['c']] ∈
      decode_project_dir
        ⟨[['/', 'a'], ['/', 'a', '/', 'b'], ['/', 'a', '/', 'b', '/', 'c'],
          ['/', 'a', '/', 'b', '-', 'c']]⟩ ['-', 'a', '-', 'b', '-', 'c'] ∧
    pathOf [] [['a'], ['b', '-', 'c']] ∈
      decode_project_dir
        ⟨[['/', 'a'], ['/', 'a', '/', 'b'], ['/', 'a', '/', 'b', '/', 'c'],
          ['/', 'a', '/', 'b', '-', 'c']]⟩ ['-', 'a', '-', 'b', '-', 'c'] :=
  decode_ambiguity_both
    ⟨[['/', 'a'], ['/', 'a', '/', 'b'], ['/', 'a', '/', 'b', '/', 'c'],
      ['/', 'a', '/', 'b', '-', 'c']]⟩ ['-', 'a', '-', 'b', '-', 'c']
    [['a'], ['b'], ['c']] [['a'], ['b', '-', 'c']]
    (by decide) (by decide) (by decide) (by decide) (by decide) (by decide)
    (by decide) (by decide) (by decide) (by decide)

/-- Claim C3: on every filesystem state, decoding the encoded name
`--meteor` yields exactly the path `/.meteor` when that directory exists and
nothing otherwise; in particular a path ending in component `-meteor` or
`meteor` is never produced.  The dash right after the stripped root dash
marks a dot-prefixed component. -/
theorem dot_meteor_decodes (fs : FS) :
    decode_project_dir fs ('-' :: '-' :: "meteor".data) =
      (if fs.isdir ('/' :: '.' :: "meteor".data)
       then ['/' :: '.' :: "meteor".data] else []) ∧
    ('/' :: '-' :: "meteor".data) ∉
      decode_project_dir fs ('-' :: '-' :: "meteor".data) ∧
    ('/' :: "meteor".data) ∉
      decode_project_dir fs ('-' :: '-' :: "meteor".data) := by
  refine ⟨rfl, ?_, ?_⟩ <;>
  · rw [show decode_project_dir fs ('-' :: '-' :: "meteor".data) =
        (if fs.isdir ('/' :: '.' :: "meteor".data)
         then ['/' :: '.' :: "meteor".data] else []) from rfl]
    cases h : fs.isdir ('/' :: '.' :: "meteor".data) <;> simp

/-- Reading back the key just written. -/
theorem alookup_assocSet_self {α : Type} (l : List (List Char × α))
    (k : List Char) (v : α) : alookup (assocSet l k v) k = some v := by
  induction l with
  | nil => simp [assocSet, alookup]
  | cons e rest ih =>
    obtain ⟨k2, v2⟩ := e
    by_cases hk : k2 = k
    · simp [assocSet, hk, alookup]
    · simp [assocSet, hk, alookup, ih]

/-- Writing one key leaves the others unchanged. -/
theorem alookup_assocSet_other {α : Type} (l : List (List Char × α))
    (k k2 : List Char) (v : α) (h : k2 ≠ k) :
    alookup (assocSet l k v) k2 = alookup l k2 := by
  have hk2 : ¬(k = k2) := fun hh => h hh.symm
  induction l with
  | nil => simp [assocSet, alookup, hk2]
  | cons e rest ih =>
    obtain ⟨k3, v3⟩ := e
    by_cases hk : k3 = k
    · subst hk
      simp [assocSet, alookup, hk2]
    · simp only [assocSet, if_neg hk, alookup]
      by_cases hk3 : k3 = k2
      · simp [hk3]
      · simp [hk3, ih]

/-- A failed lookup means the key is bound nowhere. -/
theorem alookup_none_not_mem {α : Type} (l : List (List Char × α))
    (k : List Char) (h : alookup l k = none) : ∀ e ∈ l, e.1 ≠ k := by
  induction l with
  | nil => simp
  | cons e rest ih =>
    obtain ⟨k2, v2⟩ := e
    by_cases hk : k2 = k
    · simp [alookup, hk] at h
    · simp only [alookup, if_neg hk] at h
      intro e2 he2
      rcases List.mem_cons.mp he2 with h2 | h2
      · subst h2; exact hk
      · exact ih h e2 h2

/-- Writing a fresh key appends the binding. -/
theorem assocSet_fresh {α : Type} (l : List (List Char × α)) (k : List Char)
    (v : α) (h : alookup l k = none) : assocSet l k v = l ++ [(k, v)] := by
  induction l with
  | nil => simp [assocSet]
  | cons e rest ih =>
    obtain ⟨k2, v2⟩ := e
    by_cases hk : k2 = k
    · simp [alookup, hk] at h
    · simp only [alookup, if_neg hk] at h
      simp [assocSet, hk, ih h]

/-- Creating and then unlinking a fresh file restores the disk exactly. -/
theorem fsRemove_fsWrite_fresh (d : Disk) (p : List Char) (c : Config)
    (h : fsRead d p = none) : fsRemove (fsWrite d p c) p = d := by
  unfold fsRemove fsWrite
  rw [assocSet_fresh d p c h]
  rw [List.filter_append]
  have h1 : d.filter (fun e => !(e.1 == p)) = d := by
    apply List.filter_eq_self.mpr
    intro e he
    simpa using alookup_none_not_mem d p h e he
  have h2 : List.filter (fun e => !(e.1 == p)) [(p, c)] = [] := by
    simp [List.filter]
  rw [h1, h2, List.append_nil]

/-- A successful save amounts to overwriting the config file with the new
config: the temporary file is consumed by the rename. -/
theorem save_success_disk (disk : Disk) (config : Option Config)
    (project_name directory tmpName : List Char)
    (hfresh : fsRead disk (tmpPath tmpName) = none) :
    fsReplace (fsWrite disk (tmpPath tmpName)
        (save_mapping config project_name directory))
      (tmpPath tmpName) CONFIG_PATH =
    fsWrite disk CONFIG_PATH (save_mapping config project_name directory) := by
  unfold fsReplace
  rw [show fsRead (fsWrite disk (tmpPath tmpName)
        (save_mapping config project_name directory)) (tmpPath tmpName) =
      some (save_mapping config project_name directory) from
    alookup_assocSet_self _ _ _]
  rw [fsRemove_fsWrite_fresh disk _ _ hfresh]

/-- Dropping across an append whose left part is dropped entirely. -/
theorem dropWhile_append_all {p : Char → Bool} (l r : List Char)
    (h : ∀ a ∈ l, p a = true) : (l ++ r).dropWhile p = r.dropWhile p := by
  induction l with
  | nil => simp
  | cons a t ih =>
    have ha : p a = true := h a (by simp)
    simp only [List.cons_append, List.dropWhile_cons, ha, if_pos]
    exact ih (fun b hb => h b (by simp [hb]))

/-- The directory of a file directly inside the config directory. -/
theorem dirname_concat (x : List Char) (hx : '/' ∉ x) :
    dirname (configDir ++ '/' :: x) = configDir := by
  unfold dirname
  have h1 : (configDir ++ '/' :: x).reverse = x.reverse ++ '/' :: configDir.reverse := by
    simp
  rw [h1]
  rw [dropWhile_append_all x.reverse ('/' :: configDir.reverse) (fun a ha => by
    have hax : a ∈ x := List.mem_reverse.mp ha
    have : a ≠ '/' := fun hh => hx (hh ▸ hax)
    simpa using this)]
  rw [show List.dropWhile (fun c => !(c = '/')) ('/' :: configDir.reverse) =
      '/' :: configDir.reverse from by simp [List.dropWhile_cons]]
  decide

/-- Claim C7: every save builds the full new config, writes it to a temporary
file inside the destination's directory, and replaces the destination with it;
with a failure injected before the rename completes, the temporary file is
unlinked and the disk — in particular any pre-existing destination content —
is left exactly as it was.  The freshness hypothesis reflects `mkstemp`'s
guarantee that the temporary name is new. -/
theorem save_atomic (disk : Disk) (config : Option Config)
    (project_name directory tmpName : List Char)
    (hfresh : fsRead disk (tmpPath tmpName) = none)
    (hslash : '/' ∉ tmpName)
    (hne : tmpPath tmpName ≠ CONFIG_PATH) :
    (save_project_mapping disk config project_name directory tmpName true =
      (.ok (save_mapping config project_name directory),
       fsWrite disk CONFIG_PATH (save_mapping config project_name directory)) ∧
     fsRead (fsWrite disk CONFIG_PATH (save_mapping config project_name directory))
       CONFIG_PATH = some (save_mapping config project_name directory) ∧
     fsRead (fsWrite disk CONFIG_PATH (save_mapping config project_name directory))
       (tmpPath tmpName) = none ∧
     (∀ q, q ≠ CONFIG_PATH →
       fsRead (fsWrite disk CONFIG_PATH (save_mapping config project_name directory)) q =
         fsRead disk q)) ∧
    save_project_mapping disk config project_name directory tmpName false =
      (.error .saveFailed, disk) ∧
    dirname (tmpPath tmpName) = configDir := by
  refine ⟨⟨?_, ?_, ?_, ?_⟩, ?_, ?_⟩
  · rw [show save_project_mapping disk config project_name directory tmpName true =
        (.ok (save_mapping config project_name directory),
         fsReplace (fsWrite disk (tmpPath tmpName)
             (save_mapping config project_name directory))
           (tmpPath tmpName) CONFIG_PATH) from rfl]
    rw [save_success_disk disk config project_name directory tmpName hfresh]
  · exact alookup_assocSet_self _ _ _
  · rw [show (fsRead (fsWrite disk CONFIG_PATH
        (save_mapping config project_name directory)) (tmpPath tmpName) :
          Option Config) =
      fsRead disk (tmpPath tmpName) from alookup_assocSet_other _ _ _ _ hne]
    exact hfresh
  · intro q hq
    exact alookup_assocSet_other _ _ _ _ hq
  · rw [show save_project_mapping disk config project_name directory tmpName false =
        (.error .saveFailed,
         fsRemove (fsWrite disk (tmpPath tmpName)
             (save_mapping config project_name directory))
           (tmpPath tmpName)) from rfl]
    rw [fsRemove_fsWrite_fresh disk _ _ hfresh]
  · unfold tmpPath
    apply dirname_concat
    intro hmem
    rcases List.mem_append.mp hmem with h | h
    · exact hslash h
    · revert h; decide

/-- Claim C7 witness: the atomicity theorem applied to a concrete disk whose
config file holds one mapping, with temporary stem `tmp01`. -/
theorem save_atomic_witness :
    (save_project_mapping [(CONFIG_PATH, ⟨none, [(['a'], ['/', 'a'])]⟩)]
        (some ⟨none, [(['a'], ['/', 'a'])]⟩) ['b'] ['/', 'b'] "tmp01".data true =
      (.ok (save_mapping (some ⟨none, [(['a'], ['/', 'a'])]⟩) ['b'] ['/', 'b']),
       fsWrite [(CONFIG_PATH, ⟨none, [(['a'], ['/', 'a'])]⟩)] CONFIG_PATH
         (save_mapping (some ⟨none, [(['a'], ['/', 'a'])]⟩) ['b'] ['/', 'b'])) ∧
     fsRead (fsWrite [(CONFIG_PATH, ⟨none, [(['a'], ['/', 'a'])]⟩)] CONFIG_PATH
         (save_mapping (some ⟨none, [(['a'], ['/', 'a'])]⟩) ['b'] ['/', 'b']))
       CONFIG_PATH = some (save_mapping (some ⟨none, [(['a'], ['/', 'a'])]⟩) ['b'] ['/', 'b']) ∧
     fsRead (fsWrite [(CONFIG_PATH, ⟨none, [(['a'], ['/', 'a'])]⟩)] CONFIG_PATH
         (save_mapping (some ⟨none, [(['a'], ['/', 'a'])]⟩) ['b'] ['/', 'b']))
       (tmpPath "tmp01".data) = none ∧
     (∀ q, q ≠ CONFIG_PATH →
       fsRead (fsWrite [(CONFIG_PATH, ⟨none, [(['a'], ['/', 'a'])]⟩)] CONFIG_PATH
           (save_mapping (some ⟨none, [(['a'], ['/', 'a'])]⟩) ['b'] ['/', 'b'])) q =
         fsRead [(CONFIG_PATH, ⟨none, [(['a'], ['/', 'a'])]⟩)] q)) ∧
    save_project_mapping [(CONFIG_PATH, ⟨none, [(['a'], ['/', 'a'])]⟩)]
        (some ⟨none, [(['a'], ['/', 'a'])]⟩) ['b'] ['/', 'b'] "tmp01".data false =
      (.error .saveFailed, [(CONFIG_PATH, ⟨none, [(['a'], ['/', 'a'])]⟩)]) ∧
    dirname (tmpPath "tmp01".data) = configDir :=
  save_atomic [(CONFIG_PATH, ⟨none, [(['a'], ['/', 'a'])]⟩)]
    (some ⟨none, [(['a'], ['/', 'a'])]⟩) ['b'] ['/', 'b'] "tmp01".data
    (by decide) (by decide) (by decide)

/-- A nonempty exact tier implies a nonempty discovery. -/
theorem exactMatches_ne_nil_discover {env : Env} {project_name dir : List Char}
    (hexact : exactMatches env project_name = [dir]) :
    (discover_claude_projects env).isEmpty = false := by
  cases hd : discover_claude_projects env with
  | nil =>
    unfold exactMatches at hexact
    rw [hd] at hexact
    simp at hexact
  | cons x xs => simp

/-- With exactly one exact match the resolver reduces to the save call on
that path; discovery outcome and picker are not consulted further. -/
theorem resolve_auto_eq (env : Env) (project_name : List Char)
    (config : Option Config) (dir : List Char) (disk : Disk) (tmpName : List Char)
    (writeOk : Bool) (hexact : exactMatches env project_name = [dir]) :
    resolve_unknown_project env project_name config disk tmpName writeOk =
      (match save_project_mapping disk config project_name dir tmpName writeOk with
       | (.ok newCfg, disk2) => (.ok (dir, newCfg), disk2)
       | (.error e, disk2) => (.error e, disk2)) := by
  have hd := exactMatches_ne_nil_discover hexact
  have hnn : ¬((discover_claude_projects env).isEmpty = true) := by
    rw [hd]; simp
  unfold resolve_unknown_project
  rw [if_neg hnn, hexact]

/-- Claim C5: when the discovered index holds exactly one path whose basename
equals the requested project name (whatever the substring tier holds), the
resolver returns that path without consulting the picker (the result is the
same for every picker `pk`), the mapping is recorded in the returned config's
projects map, and the updated config is persisted to the config file. -/
theorem auto_select_persists (env : Env) (project_name : List Char)
    (config : Option Config) (dir : List Char) (disk : Disk) (tmpName : List Char)
    (pk : List Char → List (List Char) → Option (List Char))
    (hexact : exactMatches env project_name = [dir]) :
    resolve_unknown_project env project_name config disk tmpName true =
      (.ok (dir, save_mapping config project_name dir),
       fsReplace (fsWrite disk (tmpPath tmpName) (save_mapping config project_name dir))
         (tmpPath tmpName) CONFIG_PATH) ∧
    alookup (save_mapping config project_name dir).projects project_name = some dir ∧
    fsRead (resolve_unknown_project env project_name config disk tmpName true).2
      CONFIG_PATH = some (save_mapping config project_name dir) ∧
    resolve_unknown_project ⟨env.fs, env.projectsRoot, env.claudeEntries, pk⟩
        project_name config disk tmpName true =
      resolve_unknown_project env project_name config disk tmpName true := by
  have hmain : resolve_unknown_project env project_name config disk tmpName true =
      (.ok (dir, save_mapping config project_name dir),
       fsReplace (fsWrite disk (tmpPath tmpName) (save_mapping config project_name dir))
         (tmpPath tmpName) CONFIG_PATH) := by
    rw [resolve_auto_eq env project_name config dir disk tmpName true hexact]
    rfl
  have hex2 : exactMatches ⟨env.fs, env.projectsRoot, env.claudeEntries, pk⟩
      project_name = [dir] := hexact
  refine ⟨hmain, ?_, ?_, ?_⟩
  · simp [save_mapping, alookup_assocSet_self]
  · rw [hmain]
    unfold fsReplace
    rw [show fsRead (fsWrite disk (tmpPath tmpName)
          (save_mapping config project_name dir)) (tmpPath tmpName) =
        some (save_mapping config project_name dir) from alookup_assocSet_self _ _ _]
    exact alookup_assocSet_self _ _ _
  · rw [resolve_auto_eq _ project_name config dir disk tmpName true hex2, hmain]
    rfl

/-- Claim C5 witness: the auto-select theorem at a concrete environment whose
single projects-root entry `-a` decodes to `/a`, requested name `a`. -/
theorem auto_select_witness :
    resolve_unknown_project
        ⟨⟨[['/', 'r'], ['/', 'r', '/', '-', 'a'], ['/', 'a']]⟩, ['/', 'r'],
          [['-', 'a']], fun _ _ => none⟩ ['a'] none [] ['t'] true =
      (.ok (['/', 'a'], save_mapping none ['a'] ['/', 'a']),
       fsReplace (fsWrite [] (tmpPath ['t']) (save_mapping none ['a'] ['/', 'a']))
         (tmpPath ['t']) CONFIG_PATH) ∧
    alookup (save_mapping none ['a'] ['/', 'a']).projects ['a'] = some ['/', 'a'] ∧
    fsRead (resolve_unknown_project
        ⟨⟨[['/', 'r'], ['/', 'r', '/', '-', 'a'], ['/', 'a']]⟩, ['/', 'r'],
          [['-', 'a']], fun _ _ => none⟩ ['a'] none [] ['t'] true).2
      CONFIG_PATH = some (save_mapping none ['a'] ['/', 'a']) ∧
    resolve_unknown_project
        ⟨⟨[['/', 'r'], ['/', 'r', '/', '-', 'a'], ['/', 'a']]⟩, ['/', 'r'],
          [['-', 'a']], fun n _ => some n⟩ ['a'] none [] ['t'] true =
      resolve_unknown_project
        ⟨⟨[['/', 'r'], ['/', 'r', '/', '-', 'a'], ['/', 'a']]⟩, ['/', 'r'],
          [['-', 'a']], fun _ _ => none⟩ ['a'] none [] ['t'] true :=
  auto_select_persists
    ⟨⟨[['/', 'r'], ['/', 'r', '/', '-', 'a'], ['/', 'a']]⟩, ['/', 'r'],
      [['-', 'a']], fun _ _ => none⟩ ['a'] none ['/', 'a'] [] ['t']
    (fun n _ => some n) (by decide)

/-- Claim C6: whenever resolution reaches the picker (projects were
discovered and the exact tier does not hold exactly one path) and the picker
outcome is a cancellation — `none` covers dialog failure, cancel and timeout
alike, and an empty selection is rejected the same way — the resolver fails
with the selection-cancelled error and returns the disk unchanged: no save
happens, the config file keeps its previous content, and no updated config is
produced. -/
theorem cancellation_atomic (env : Env) (project_name : List Char)
    (config : Option Config) (disk : Disk) (tmpName : List Char) (writeOk : Bool)
    (hnonempty : (discover_claude_projects env).isEmpty = false)
    (hnot1 : (exactMatches env project_name).length ≠ 1)
    (hcancel :
      env.picker project_name (sortPaths (candidateList env project_name)) = none ∨
      env.picker project_name (sortPaths (candidateList env project_name)) = some []) :
    resolve_unknown_project env project_name config disk tmpName writeOk =
      (.error (.selectionCancelled project_name), disk) := by
  have hnn : ¬((discover_claude_projects env).isEmpty = true) := by
    rw [hnonempty]; simp
  unfold resolve_unknown_project
  rw [if_neg hnn]
  rcases hx : exactMatches env project_name with _ | ⟨d, _ | ⟨d2, tl⟩⟩
  · rcases hcancel with hc | hc <;> simp [hc]
  · exfalso; rw [hx] at hnot1; simp at hnot1
  · rcases hcancel with hc | hc <;> simp [hc]

/-- Claim C6 witness: two discovered paths `/x/a` and `/y/a` both match the
requested name `a` exactly, the picker cancels, and the resolver reports the
cancellation leaving the config file (holding a previous mapping) untouched. -/
theorem cancellation_witness :
    resolve_unknown_project
        ⟨⟨[['/', 'r'], ['/', 'r', '/', '-', 'x', '-', 'a'],
           ['/', 'r', '/', '-', 'y', '-', 'a'], ['/', 'x'], ['/', 'x', '/', 'a'],
           ['/', 'y'], ['/', 'y', '/', 'a']]⟩, ['/', 'r'],
          [['-', 'x', '-', 'a'], ['-', 'y', '-', 'a']], fun _ _ => none⟩
        ['a'] (some ⟨none, [(['b'], ['/', 'b'])]⟩)
        [(CONFIG_PATH, ⟨none, [(['b'], ['/', 'b'])]⟩)] ['t'] true =
      (.error (.selectionCancelled ['a']),
       [(CONFIG_PATH, ⟨none, [(['b'], ['/', 'b'])]⟩)]) :=
  cancellation_atomic
    ⟨⟨[['/', 'r'], ['/', 'r', '/', '-', 'x', '-', 'a'],
       ['/', 'r', '/', '-', 'y', '-', 'a'], ['/', 'x'], ['/', 'x', '/', 'a'],
       ['/', 'y'], ['/', 'y', '/', 'a']]⟩, ['/', 'r'],
      [['-', 'x', '-', 'a'], ['-', 'y', '-', 'a']], fun _ _ => none⟩
    ['a'] (some ⟨none, [(['b'], ['/', 'b'])]⟩)
    [(CONFIG_PATH, ⟨none, [(['b'], ['/', 'b'])]⟩)] ['t'] true
    (by decide) (by decide) (Or.inl rfl)

/-- Claim C4: when the config's projects mapping contains the requested
project name, `parse_url` uses the mapped directory string unchanged and
returns the config unmodified, performing no scan of the projects root and
never invoking the picker: the outcome is fully determined by the mapped
string and its directory-existence check (the request fails with the
directory-missing error when the final existence check rejects a nonempty
mapped path), and any environment with the same filesystem — whatever its
projects-root entries or picker — produces the identical result, no disk
write included. -/
theorem fast_path_characterization (env env2 : Env) (u : ParsedUrl)
    (cfg : Config) (project directory promptV vV : List Char)
    (pvs vvs : List (List Char)) (ver : Int)
    (disk : Disk) (tmpName : List Char) (writeOk : Bool)
    (hs : u.scheme = "claunch".data) (hh : u.netloc = "open".data)
    (hp : getParam u "prompt".data = some (promptV :: pvs))
    (hpn : (pyStrip promptV).isEmpty = false)
    (hv : getParam u "v".data = some (vV :: vvs))
    (hvn : (pyStrip vV).isEmpty = false)
    (hvi : parseInt vV = some ver)
    (hvs : SUPPORTED_VERSIONS.contains ver = true)
    (hpo : projectOf u = some project)
    (hlook : alookup cfg.projects project = some directory)
    (hfs : env2.fs = env.fs) :
    (env.fs.isdir directory = true →
      parse_url env u (some cfg) disk tmpName writeOk =
        (.ok (promptV, some directory, ver, some cfg), disk)) ∧
    (directory = [] →
      parse_url env u (some cfg) disk tmpName writeOk =
        (.ok (promptV, some directory, ver, some cfg), disk)) ∧
    (env.fs.isdir directory = false → directory ≠ [] →
      parse_url env u (some cfg) disk tmpName writeOk =
        (.error (.directoryMissing directory), disk)) ∧
    parse_url env2 u (some cfg) disk tmpName writeOk =
      parse_url env u (some cfg) disk tmpName writeOk := by
  have hbase : ∀ e : Env, e.fs = env.fs →
      parse_url e u (some cfg) disk tmpName writeOk =
        (if directory.isEmpty then
          ((.ok (promptV, some directory, ver, some cfg) :
            Except Err (List Char × Option (List Char) × Int × Option Config)), disk)
         else if env.fs.isdir directory then
          (.ok (promptV, some directory, ver, some cfg), disk)
         else (.error (.directoryMissing directory), disk)) := by
    intro e he
    simp only [parse_url, hs, hh, hp, hv, hvi, hpo, configProjects,
      Option.getD_some, hlook, hpn, hvn, hvs, he]
    simp
  refine ⟨?_, ?_, ?_, ?_⟩
  · intro h
    rw [hbase env rfl]
    by_cases hd : directory.isEmpty <;> simp [hd, h]
  · intro h
    subst h
    rw [hbase env rfl]
    simp
  · intro h hne2
    rw [hbase env rfl]
    have hd : directory.isEmpty = false := by
      cases directory with
      | nil => exact absurd rfl hne2
      | cons a t => simp
    simp [hd, h]
  · rw [hbase env2 hfs, hbase env rfl]

/-- Claim C4 witness: the fast-path theorem at a concrete request for project
`a` mapped to the existing directory `/x`; the second environment has a
different projects root, different entries and a different picker but the
same filesystem, and the result is identical. -/
theorem fast_path_witness :
    ((⟨⟨[['/', 'x']]⟩, ['/', 'r'], [], fun _ _ => none⟩ : Env).fs.isdir ['/', 'x'] = true →
      parse_url ⟨⟨[['/', 'x']]⟩, ['/', 'r'], [], fun _ _ => none⟩
          ⟨"claunch".data, "open".data,
            [("prompt".data, [['h', 'i']]), ("v".data, [['1']]),
             ("project".data, [['a']])]⟩
          (some ⟨none, [(['a'], ['/', 'x'])]⟩) [] ['t'] true =
        (.ok (['h', 'i'], some ['/', 'x'], 1, some ⟨none, [(['a'], ['/', 'x'])]⟩), [])) ∧
    (['/', 'x'] = [] →
      parse_url ⟨⟨[['/', 'x']]⟩, ['/', 'r'], [], fun _ _ => none⟩
          ⟨"claunch".data, "open".data,
            [("prompt".data, [['h', 'i']]), ("v".data, [['1']]),
             ("project".data, [['a']])]⟩
          (some ⟨none, [(['a'], ['/', 'x'])]⟩) [] ['t'] true =
        (.ok (['h', 'i'], some ['/', 'x'], 1, some ⟨none, [(['a'], ['/', 'x'])]⟩), [])) ∧
    ((⟨⟨[['/', 'x']]⟩, ['/', 'r'], [], fun _ _ => none⟩ : Env).fs.isdir ['/', 'x'] = false →
      ['/', 'x'] ≠ [] →
      parse_url ⟨⟨[['/', 'x']]⟩, ['/', 'r'], [], fun _ _ => none⟩
          ⟨"claunch".data, "open".data,
            [("prompt".data, [['h', 'i']]), ("v".data, [['1']]),
             ("project".data, [['a']])]⟩
          (some ⟨none, [(['a'], ['/', 'x'])]⟩) [] ['t'] true =
        (.error (.directoryMissing ['/', 'x']), [])) ∧
    parse_url ⟨⟨[['/', 'x']]⟩, ['/', 'q'], [['-', 'x']], fun n _ => some n⟩
        ⟨"claunch".data, "open".data,
          [("prompt".data, [['h', 'i']]), ("v".data, [['1']]),
           ("project".data, [['a']])]⟩
        (some ⟨none, [(['a'], ['/', 'x'])]⟩) [] ['t'] true =
      parse_url ⟨⟨[['/', 'x']]⟩, ['/', 'r'], [], fun _ _ => none⟩
        ⟨"claunch".data, "open".data,
          [("prompt".data, [['h', 'i']]), ("v".data, [['1']]),
           ("project".data, [['a']])]⟩
        (some ⟨none, [(['a'], ['/', 'x'])]⟩) [] ['t'] true :=
  fast_path_characterization
    ⟨⟨[['/', 'x']]⟩, ['/', 'r'], [], fun _ _ => none⟩
    ⟨⟨[['/', 'x']]⟩, ['/', 'q'], [['-', 'x']], fun n _ => some n⟩
    ⟨"claunch".data, "open".data,
      [("prompt".data, [['h', 'i']]), ("v".data, [['1']]),
       ("project".data, [['a']])]⟩
    ⟨none, [(['a'], ['/', 'x'])]⟩ ['a'] ['/', 'x'] ['h', 'i'] ['1'] [] [] 1
    [] ['t'] true
    (by decide) (by decide) (by decide) (by decide) (by decide) (by decide)
    (by decide) (by decide) (by decide) (by decide) (by decide)

/-- Claim C10: for an otherwise valid URL whose `project` query parameter is
present but has an empty value list or a whitespace-only first value,
`parse_url` treats the project as absent: no resolution happens, the returned
directory is absent, the config is returned unchanged and the disk is
untouched. -/
theorem empty_project_ignored (env : Env) (u : ParsedUrl)
    (config : Option Config) (disk : Disk) (tmpName : List Char)
    (writeOk : Bool) (promptV vV : List Char)
    (pvs vvs ps : List (List Char)) (ver : Int)
    (hs : u.scheme = "claunch".data) (hh : u.netloc = "open".data)
    (hp : getParam u "prompt".data = some (promptV :: pvs))
    (hpn : (pyStrip promptV).isEmpty = false)
    (hv : getParam u "v".data = some (vV :: vvs))
    (hvn : (pyStrip vV).isEmpty = false)
    (hvi : parseInt vV = some ver)
    (hvs : SUPPORTED_VERSIONS.contains ver = true)
    (hproj : getParam u "project".data = some ps)
    (hws : (ps.head?.map (fun p => (pyStrip p).isEmpty)).getD true = true) :
    parse_url env u config disk tmpName writeOk =
      (.ok (promptV, none, ver, config), disk) := by
  have hpo : projectOf u = none := by
    cases ps with
    | nil => simp [projectOf, hproj]
    | cons p rest =>
      simp at hws
      simp [projectOf, hproj, hws]
  simp only [parse_url, hs, hh, hp, hv, hvi, hpo, hpn, hvn, hvs]
  simp

/-- Claim C10 witness: the theorem applied to a request whose `project`
parameter value is a single space. -/
theorem empty_project_witness :
    parse_url ⟨⟨[['/', 'x']]⟩, ['/', 'r'], [], fun _ _ => none⟩
        ⟨"claunch".data, "open".data,
          [("prompt".data, [['h', 'i']]), ("v".data, [['1']]),
           ("project".data, [[' ']])]⟩
        (some ⟨none, [(['a'], ['/', 'x'])]⟩) [] ['t'] true =
      (.ok (['h', 'i'], none, 1, some ⟨none, [(['a'], ['/', 'x'])]⟩), []) :=
  empty_project_ignored
    ⟨⟨[['/', 'x']]⟩, ['/', 'r'], [], fun _ _ => none⟩
    ⟨"claunch".data, "open".data,
      [("prompt".data, [['h', 'i']]), ("v".data, [['1']]),
       ("project".data, [[' ']])]⟩
    (some ⟨none, [(['a'], ['/', 'x'])]⟩) [] ['t'] true
    ['h', 'i'] ['1'] [] [] [[' ']] 1
    (by decide) (by decide) (by decide) (by decide) (by decide) (by decide)
    (by decide) (by decide) (by decide) (by decide)

/-- Claim C8, counterexample to the claim as stated.  Two failures: the
document `{"terminal": null}` carries a terminal value that is not one of the
supported enum strings, yet `load_config` returns the document rather than
absent (`json.load` maps `null` to Python `None`, so the
`terminal is not None` guard treats it as absent); and the document
`{"terminal": []}` makes `load_config` raise instead of returning absent,
because the unhashable list crashes the set-membership test
`terminal not in VALID_TERMINALS` with an uncaught `TypeError`. -/
theorem load_fail_open_counterexample :
    jlookup [("terminal".data, JVal.null)] "terminal".data = some JVal.null ∧
    load_config (.parsed (JVal.obj [("terminal".data, JVal.null)])) =
      .loaded (JVal.obj [("terminal".data, JVal.null)]) ∧
    load_config (.parsed (JVal.obj [("terminal".data, JVal.arr [])])) =
      .crash :=
  ⟨rfl, rfl, rfl⟩

/-- Claim C8 (amended): `load_config` returns absent, without raising, for a
missing file, an unreadable file, invalid JSON, a document that is not a JSON
object, and a document whose `terminal` key holds a string outside the
supported enum or a boolean or a number; a null terminal value is treated as
if the key were absent; a terminal value that is an array or an object makes
`load_config` raise an uncaught `TypeError` rather than fail open.  In every
absent case the whole document is discarded, never salvaged in part. -/
theorem load_fail_open_amended :
    load_config .missing = .absent ∧
    load_config .unreadable = .absent ∧
    load_config .notJson = .absent ∧
    (∀ doc : JVal, (∀ fields, doc ≠ JVal.obj fields) →
      load_config (.parsed doc) = .absent) ∧
    (∀ fields s, jlookup fields "terminal".data = some (JVal.str s) →
      VALID_TERMINALS.contains s = false →
      load_config (.parsed (JVal.obj fields)) = .absent) ∧
    (∀ fields b, jlookup fields "terminal".data = some (JVal.bool b) →
      load_config (.parsed (JVal.obj fields)) = .absent) ∧
    (∀ fields n, jlookup fields "terminal".data = some (JVal.num n) →
      load_config (.parsed (JVal.obj fields)) = .absent) ∧
    (∀ fields xs, jlookup fields "terminal".data = some (JVal.arr xs) →
      load_config (.parsed (JVal.obj fields)) = .crash) ∧
    (∀ fields ms, jlookup fields "terminal".data = some (JVal.obj ms) →
      load_config (.parsed (JVal.obj fields)) = .crash) := by
  refine ⟨rfl, rfl, rfl, ?_, ?_, ?_, ?_, ?_, ?_⟩
  · intro doc h
    cases doc with
    | obj fields => exact absurd rfl (h fields)
    | null => rfl
    | bool b => rfl
    | num n => rfl
    | str s => rfl
    | arr xs => rfl
  · intro fields s hlk hb
    have hb2 : ¬s ∈ VALID_TERMINALS := by simpa using hb
    simp [load_config, hlk, hb2]
  · intro fields b hlk
    simp [load_config, hlk]
  · intro fields n hlk
    simp [load_config, hlk]
  · intro fields xs hlk
    simp [load_config, hlk]
  · intro fields ms hlk
    simp [load_config, hlk]

/-- Claim C8 witness: the amended theorem applied to `{"terminal": 5}` (a
hashable value outside the enum, absent) and to `{"terminal": {}}` (an
unhashable value, crash). -/
theorem load_fail_open_witness :
    load_config (.parsed (JVal.obj [("terminal".data, JVal.num 5)])) = .absent ∧
    load_config (.parsed (JVal.obj [("terminal".data, JVal.obj [])])) = .crash :=
  ⟨load_fail_open_amended.2.2.2.2.2.2.1 [("terminal".data, JVal.num 5)] 5 rfl,
   load_fail_open_amended.2.2.2.2.2.2.2.2 [("terminal".data, JVal.obj [])] [] rfl⟩

/-- Claim C9, counterexample to the claim as stated.  A document whose
projects map carries the value `0` — not a non-empty string — is returned
as-is by `load_config` instead of being treated as structurally invalid:
only the `projects`-is-an-object shape is checked, never the values. -/
theorem load_projects_values_counterexample :
    load_config (.parsed (JVal.obj
        [("projects".data, JVal.obj [(['a'], JVal.num 0)])])) =
      .loaded (JVal.obj [("projects".data, JVal.obj [(['a'], JVal.num 0)])]) :=
  rfl

/-- Claim C9 (amended): `load_config` requires `projects`, when present and
non-null, to be a JSON object but never inspects its values: any document
whose `projects` key holds an object — whatever the values, non-strings and
empty strings included — passes validation and is returned whole. -/
theorem load_projects_values_unchecked (fields : List (List Char × JVal))
    (pm : List (List Char × JVal))
    (hterm : jlookup fields "terminal".data = none)
    (hproj : jlookup fields "projects".data = some (JVal.obj pm)) :
    load_config (.parsed (JVal.obj fields)) = .loaded (JVal.obj fields) := by
  have h2 : pyGet fields "projects".data = some (JVal.obj pm) := by
    unfold pyGet; rw [hproj]
  simp [load_config, hterm, projectsCheck, h2]

/-- Claim C9 witness: the amended theorem applied to a projects map holding
the non-string value `0` and the empty-string value. -/
theorem load_projects_values_witness :
    load_config (.parsed (JVal.obj [("projects".data,
        JVal.obj [(['a'], JVal.num 0), (['b'], JVal.str [])])])) =
      .loaded (JVal.obj [("projects".data,
        JVal.obj [(['a'], JVal.num 0), (['b'], JVal.str [])])]) :=
  load_projects_values_unchecked
    [("projects".data, JVal.obj [(['a'], JVal.num 0), (['b'], JVal.str [])])]
    [(['a'], JVal.num 0), (['b'], JVal.str [])] rfl rfl
